import Mathlib

/-!
Verification of the minibiblio circulation engine and its frontend helpers.

The repository is a library-management web application.  The sources under
`src/` contain the Next.js frontend (tables, dialogs, dashboard fetchers,
settings preview) and a SQL schema; the FastAPI backend that implements the
loan ledger (checkout / return / extend) is consumed through
`/api/python/...` endpoints and is not part of these sources.  Pure frontend
logic is embedded here directly from the source files; the ledger operations
are modelled from the specification (each such definition carries a doc
comment starting with `Modelled from the spec:`).
-/

namespace MiniBiblio

/-! ## Data model -/

/-- Catalog item statuses, from the frontend `CatalogItem` interface:
`"available" | "borrowed" | "reserved" | "damaged" | "lost"`. -/
inductive ItemStatus where
  | available
  | borrowed
  | reserved
  | damaged
  | lost
deriving DecidableEq, Repr

/-- Patron statuses (spec §3: active/inactive/suspended). -/
inductive PatronStatus where
  | active
  | inactive
  | suspended
deriving DecidableEq, Repr

/-- Persisted loan statuses of the ledger (spec §3: a loan is stored as
active or returned; "overdue" is derived, never stored). -/
inductive LoanStatus where
  | active
  | returned
deriving DecidableEq, Repr

structure CatalogItem where
  id : Nat
  status : ItemStatus
deriving DecidableEq, Repr

structure Patron where
  id : Nat
  status : PatronStatus
deriving DecidableEq, Repr

/-- A loan record (spec §3): references one catalog item and one patron,
carries checkout/due/return dates (modelled as integer timestamps). -/
structure Loan where
  id : Nat
  patronId : Nat
  itemId : Nat
  checkout_date : Int
  due_date : Int
  return_date : Option Int
  status : LoanStatus
  notes : Option String
deriving DecidableEq, Repr

/-- Loan-period policy, from the frontend `LoanPeriodSettings` interface
(`default_period`, `available_periods`, `extension_period`). -/
structure Policy where
  default_period : Nat
  available_periods : List Nat
  extension_period : Nat
deriving DecidableEq, Repr

/-- The persisted state the ledger operates on (spec §6: three related
tables, loans holding foreign keys to the other two). -/
structure LedgerState where
  items : List CatalogItem
  patrons : List Patron
  loans : List Loan
  nextLoanId : Nat
deriving DecidableEq, Repr

/-- Error kinds of the ledger (spec §7 error taxonomy). -/
inductive LedgerError where
  | ItemNotAvailable
  | PatronNotEligible
  | InvalidLoanPeriod
  | LoanNotFound
  | LoanAlreadyReturned
  | LoanNotActive
  | ValidationError
deriving DecidableEq, Repr

def findItem (s : LedgerState) (iid : Nat) : Option CatalogItem :=
  s.items.find? (fun i => i.id == iid)

def findPatron (s : LedgerState) (pid : Nat) : Option Patron :=
  s.patrons.find? (fun p => p.id == pid)

def findLoan (s : LedgerState) (lid : Nat) : Option Loan :=
  s.loans.find? (fun l => l.id == lid)

def setItemStatus (s : LedgerState) (iid : Nat) (st : ItemStatus) : LedgerState :=
  { s with items := s.items.map (fun i => if i.id = iid then { i with status := st } else i) }

def mkLoan (lid pid iid : Nat) (now : Int) (dueDays : Nat) (notes : Option String) : Loan :=
  { id := lid, patronId := pid, itemId := iid, checkout_date := now,
    due_date := now + dueDays, return_date := none, status := LoanStatus.active,
    notes := notes }

/-- Modelled from the spec: `Checkout(patron_id, catalog_item_id, due_days, notes?)`
(§4.1); the backend implementation is not in the frontend sources.
Preconditions: patron exists and is active, item exists and is available,
`due_days` is a positive integer in the policy's allowed set.  Effect: creates
a new Loan with `checkout_date = now`, `due_date = now + due_days`,
status active, `return_date = null`, and sets the item's status to borrowed —
both applied as a single atomic unit (§5). -/
def checkout (pol : Policy) (now : Int) (pid iid dueDays : Nat)
    (notes : Option String) (s : LedgerState) : Except LedgerError LedgerState :=
  match findPatron s pid with
  | none => Except.error LedgerError.PatronNotEligible
  | some p =>
    if p.status = PatronStatus.active then
      match findItem s iid with
      | none => Except.error LedgerError.ItemNotAvailable
      | some it =>
        if it.status = ItemStatus.available then
          if 0 < dueDays ∧ dueDays ∈ pol.available_periods then
            Except.ok
              { items := (setItemStatus s iid ItemStatus.borrowed).items
                patrons := s.patrons
                loans := s.loans ++ [mkLoan s.nextLoanId pid iid now dueDays notes]
                nextLoanId := s.nextLoanId + 1 }
          else Except.error LedgerError.InvalidLoanPeriod
        else Except.error LedgerError.ItemNotAvailable
    else Except.error LedgerError.PatronNotEligible

/-- Mark the loan with the given id as returned at time `now`. -/
def markReturned (now : Int) (lid : Nat) (s : LedgerState) : LedgerState :=
  { s with loans := s.loans.map (fun l =>
      if l.id = lid then
        { l with status := LoanStatus.returned, return_date := some now }
      else l) }

/-- Modelled from the spec: `Return(loan_id)` (§4.1); the backend
implementation is not in the frontend sources.  Precondition: the loan exists
and is active.  Effect: sets `return_date = now`, status returned, and sets
the referenced item's status back to available unless the item was separately
flagged damaged or lost.  Returning an already-returned loan fails with
`LoanAlreadyReturned`. -/
def returnLoan (now : Int) (lid : Nat) (s : LedgerState) : Except LedgerError LedgerState :=
  match findLoan s lid with
  | none => Except.error LedgerError.LoanNotFound
  | some loan =>
    if loan.status = LoanStatus.returned then
      Except.error LedgerError.LoanAlreadyReturned
    else
      match findItem s loan.itemId with
      | none => Except.ok (markReturned now lid s)
      | some it =>
        if it.status = ItemStatus.damaged ∨ it.status = ItemStatus.lost then
          Except.ok (markReturned now lid s)
        else
          Except.ok (setItemStatus (markReturned now lid s) loan.itemId ItemStatus.available)

/-- Modelled from the spec: `Extend(loan_id, additional_days)` (§4.1); the
backend implementation is not in the frontend sources.  Precondition: the
loan exists and is active, `additional_days` positive.  Effect:
`due_date = due_date + additional_days`; extending a returned loan fails with
`LoanNotActive`. -/
def extendLoan (lid : Nat) (additionalDays : Nat) (s : LedgerState) :
    Except LedgerError LedgerState :=
  match findLoan s lid with
  | none => Except.error LedgerError.LoanNotFound
  | some loan =>
    if loan.status = LoanStatus.active then
      if 0 < additionalDays then
        Except.ok
          { s with loans := s.loans.map (fun l =>
              if l.id = lid then { l with due_date := l.due_date + additionalDays }
              else l) }
      else Except.error LedgerError.ValidationError
    else Except.error LedgerError.LoanNotActive

/-- Modelled from the spec: the `List` endpoint with a status filter (§6);
the backend implementation is not in the frontend sources.  The checkout
dialog requests `/api/python/patrons?status=active`. -/
def listPatronsByStatus (ps : List Patron) (st : PatronStatus) : List Patron :=
  ps.filter (fun p => p.status == st)

/-- Modelled from the spec: the catalog `List` endpoint with a status filter
(§6); the backend implementation is not in the frontend sources.  The
checkout dialog requests `/api/python/catalog?status=available`. -/
def listItemsByStatus (its : List CatalogItem) (st : ItemStatus) : List CatalogItem :=
  its.filter (fun i => i.status == st)

/-- The patron choices loaded by the checkout dialog
(`src/app/admin/circulation/checkout-dialog.tsx`, fetch of
`/api/python/patrons?status=active`). -/
def checkoutDialogPatrons (s : LedgerState) : List Patron :=
  listPatronsByStatus s.patrons PatronStatus.active

/-- The item choices loaded by the checkout dialog
(`src/app/admin/circulation/checkout-dialog.tsx`, fetch of
`/api/python/catalog?status=available`). -/
def checkoutDialogItems (s : LedgerState) : List CatalogItem :=
  listItemsByStatus s.items ItemStatus.available

/-! ## Frontend view layer (embedded from the source files) -/

/-- Loan statuses as the frontend `Loan` interface declares them:
`"active" | "returned" | "overdue" | "lost"`
(`loans-table.tsx` in the circulation page sources). -/
inductive ViewLoanStatus where
  | active
  | returned
  | overdue
  | lost
deriving DecidableEq, Repr

/-- How a persisted ledger status is surfaced in the frontend view type. -/
def viewOfLoanStatus : LoanStatus → ViewLoanStatus
  | LoanStatus.active => ViewLoanStatus.active
  | LoanStatus.returned => ViewLoanStatus.returned

/-- Embedded from `isOverdue` in the circulation loans table:
`if (status !== "active") return false; return new Date(dueDate) < new Date();`
Dates are modelled as integer timestamps; `now` is the current time. -/
def isOverdue (dueDate : Int) (status : ViewLoanStatus) (now : Int) : Bool :=
  if status ≠ ViewLoanStatus.active then false else decide (dueDate < now)

/-- Embedded from the status badge of the loans table: the badge shows
`statuses.overdue` when `isOverdue(loan.due_date, loan.status)` holds and the
stored status label otherwise. -/
def displayedStatus (status : ViewLoanStatus) (dueDate now : Int) : ViewLoanStatus :=
  if isOverdue dueDate status now then ViewLoanStatus.overdue else status

/-- Embedded from the loans table: the Extend/Return dropdown entries are
rendered only under `loan.status === "active"`; the loan detail page guards
`<LoanActions/>` with the same condition. -/
def loanActionsVisible (status : ViewLoanStatus) : Bool :=
  status == ViewLoanStatus.active

/-- Embedded from the catalog table: the Checkout menu entry is rendered only
under `item.status === "available"`. -/
def checkoutMenuVisible (status : ItemStatus) : Bool :=
  status == ItemStatus.available

/-- Embedded from the checkout dialog submit button:
`disabled={loading || !formData.patron_id || !formData.catalog_item_id}`
(an empty string is falsy in JavaScript). -/
def checkoutSubmitDisabled (loading : Bool) (patronId catalogItemId : String) : Bool :=
  loading || patronId == "" || catalogItemId == ""

/-! ## Persisted schema checks (embedded from the SQL schema) -/

/-- Embedded from the `loans` table definition:
`status TEXT DEFAULT 'borrowed' CHECK (status IN ('borrowed', 'returned'))`. -/
def loanStatusAllowed (st : String) : Bool :=
  st == "borrowed" || st == "returned"

/-- The schema default for the `loans.status` column. -/
def loanStatusDefault : String := "borrowed"

/-- Embedded from the `audit_log` table definition:
`action TEXT NOT NULL CHECK (action IN ('checkout', 'return', 'extend', 'delete'))`. -/
def auditActionAllowed (a : String) : Bool :=
  a == "checkout" || a == "return" || a == "extend" || a == "delete"

/-! ## Dashboard statistics fetchers (embedded from the admin dashboard) -/

/-- Outcome of an HTTP fetch as the dashboard fetchers observe it: the
request either throws, or yields a response with an `ok` flag and a parsed
JSON body of type `β`. -/
inductive FetchOutcome (β : Type) where
  | throws : FetchOutcome β
  | resp : Bool → β → FetchOutcome β
deriving DecidableEq, Repr

/-- Embedded from `getPatronCount`: returns 0 when the request throws or the
response is not OK, and the parsed `CountResponse.count` otherwise.  The
optional status argument only selects the URL queried. -/
def getPatronCount (o : FetchOutcome Nat) : Nat :=
  match o with
  | FetchOutcome.throws => 0
  | FetchOutcome.resp ok c => if ok then c else 0

/-- Embedded from `getCatalogCount`: same shape as `getPatronCount`; the type
and status arguments only select the URL queried. -/
def getCatalogCount (o : FetchOutcome Nat) : Nat :=
  match o with
  | FetchOutcome.throws => 0
  | FetchOutcome.resp ok c => if ok then c else 0

/-- Embedded from `getActiveLoansCount`: same shape as `getPatronCount`. -/
def getActiveLoansCount (o : FetchOutcome Nat) : Nat :=
  match o with
  | FetchOutcome.throws => 0
  | FetchOutcome.resp ok c => if ok then c else 0

/-- The JSON body of the overdue-loans endpoint as `getOverdueLoansCount`
inspects it: either an array (of loan objects, irrelevant here beyond their
count) or some non-array value. -/
inductive OverdueBody where
  | jsonArray : List Loan → OverdueBody
  | nonArray : OverdueBody
deriving DecidableEq, Repr

/-- Embedded from `getOverdueLoansCount`: returns 0 when the request throws
or the response is not OK, and otherwise
`Array.isArray(data) ? data.length : 0`. -/
def getOverdueLoansCount (o : FetchOutcome OverdueBody) : Nat :=
  match o with
  | FetchOutcome.throws => 0
  | FetchOutcome.resp ok b =>
    if ok then
      match b with
      | OverdueBody.jsonArray items => items.length
      | OverdueBody.nonArray => 0
    else 0

/-! ## Catalog-ID preview (embedded from the settings page) -/

/-- Replace the first occurrence of `pat` in a character list by `rep`,
matching JavaScript `String.prototype.replace` with a string pattern. -/
def replaceFirstList (pat rep : List Char) : List Char → List Char
  | [] => []
  | c :: cs =>
    if pat.isPrefixOf (c :: cs) then rep ++ (c :: cs).drop pat.length
    else c :: replaceFirstList pat rep cs

/-- Replace the first occurrence of `pat` in `s` by `rep` (JavaScript
`s.replace(pat, rep)` with a plain string pattern). -/
def replaceFirst (s pat rep : String) : String :=
  String.mk (replaceFirstList pat.data rep.data s.data)

/-- Embedded from the settings page preview effect:
`const nextNumber = settings.last_year !== currentYear ? 1 : lastNumber + 1`
where `currentYear` is `new Date().getFullYear() % 100`. -/
def nextCatalogNumber (lastYear currentYear lastNumber : Nat) : Nat :=
  if lastYear ≠ currentYear then 1 else lastNumber + 1

/-- Embedded from the settings page preview effect:
`format.replace("{number}", String(nextNumber)).replace("{year}", String(currentYear))`. -/
def previewNextId (format : String) (lastYear currentYear lastNumber : Nat) : String :=
  replaceFirst
    (replaceFirst format "{number}" (toString (nextCatalogNumber lastYear currentYear lastNumber)))
    "{year}" (toString currentYear)

/-! ## Basic lookup lemmas -/

theorem findItem_mem {s : LedgerState} {iid : Nat} {it : CatalogItem}
    (h : findItem s iid = some it) : it ∈ s.items :=
  List.mem_of_find?_eq_some h

theorem findItem_id {s : LedgerState} {iid : Nat} {it : CatalogItem}
    (h : findItem s iid = some it) : it.id = iid := by
  have := List.find?_some h
  simpa using this

theorem findLoan_mem {s : LedgerState} {lid : Nat} {l : Loan}
    (h : findLoan s lid = some l) : l ∈ s.loans :=
  List.mem_of_find?_eq_some h

theorem findLoan_id {s : LedgerState} {lid : Nat} {l : Loan}
    (h : findLoan s lid = some l) : l.id = lid := by
  have := List.find?_some h
  simpa using this

theorem findPatron_mem {s : LedgerState} {pid : Nat} {p : Patron}
    (h : findPatron s pid = some p) : p ∈ s.patrons :=
  List.mem_of_find?_eq_some h

/-! ## The circulation invariant and its preservation -/

/-- The circulation consistency invariant (spec §3 and §8): every active
loan's item is borrowed, at most one active loan references an item, every
borrowed item is referenced by an active loan, loan ids are distinct and
below the id counter. -/
def circInv (s : LedgerState) : Prop :=
  (∀ l ∈ s.loans, l.status = LoanStatus.active →
     ∀ i ∈ s.items, i.id = l.itemId → i.status = ItemStatus.borrowed) ∧
  (∀ l1 ∈ s.loans, ∀ l2 ∈ s.loans,
     l1.status = LoanStatus.active → l2.status = LoanStatus.active →
     l1.itemId = l2.itemId → l1 = l2) ∧
  (∀ i ∈ s.items, i.status = ItemStatus.borrowed →
     ∃ l ∈ s.loans, l.status = LoanStatus.active ∧ l.itemId = i.id) ∧
  (s.loans.map Loan.id).Nodup ∧
  (∀ l ∈ s.loans, l.id < s.nextLoanId)

theorem checkout_ok_elim {pol : Policy} {now : Int} {pid iid dueDays : Nat}
    {notes : Option String} {s s' : LedgerState}
    (h : checkout pol now pid iid dueDays notes s = Except.ok s') :
    ∃ p, findPatron s pid = some p ∧ p.status = PatronStatus.active ∧
    ∃ it, findItem s iid = some it ∧ it.status = ItemStatus.available ∧
      0 < dueDays ∧ dueDays ∈ pol.available_periods ∧
      s' = { items := (setItemStatus s iid ItemStatus.borrowed).items
             patrons := s.patrons
             loans := s.loans ++ [mkLoan s.nextLoanId pid iid now dueDays notes]
             nextLoanId := s.nextLoanId + 1 } := by
  unfold checkout at h
  cases hp : findPatron s pid with
  | none => rw [hp] at h; exact absurd h (by simp)
  | some p =>
    rw [hp] at h
    simp only at h
    split at h
    · cases hi : findItem s iid with
      | none => rw [hi] at h; exact absurd h (by simp)
      | some it =>
        rw [hi] at h
        simp only at h
        split at h
        · split at h
          · rename_i hpa hia hd
            refine ⟨p, rfl, hpa, it, rfl, hia, hd.1, hd.2, ?_⟩
            exact ((Except.ok.injEq _ _).mp h).symm
          · exact absurd h (by simp)
        · exact absurd h (by simp)
    · exact absurd h (by simp)

theorem checkout_preserves {pol : Policy} {now : Int} {pid iid dueDays : Nat}
    {notes : Option String} {s s' : LedgerState}
    (hinv : circInv s) (h : checkout pol now pid iid dueDays notes s = Except.ok s') :
    circInv s' := by
  obtain ⟨p, hp, hpa, it, hit, hita, hdpos, hdmem, rfl⟩ := checkout_ok_elim h
  obtain ⟨ha, hb, hd, he, hf⟩ := hinv
  have hitmem : it ∈ s.items := findItem_mem hit
  have hitid : it.id = iid := findItem_id hit
  -- no active loan references the checked-out item
  have K1 : ∀ l ∈ s.loans, l.status = LoanStatus.active → l.itemId ≠ iid := by
    intro l hl hla heq
    have := ha l hl hla it hitmem (by rw [hitid, heq])
    rw [this] at hita
    exact absurd hita (by simp)
  refine ⟨?_, ?_, ?_, ?_, ?_⟩
  · -- every active loan's item is borrowed
    intro l' hl' hact i' hi' hid
    simp only [setItemStatus, List.mem_map] at hi'
    obtain ⟨i0, hi0, rfl⟩ := hi'
    by_cases hc : i0.id = iid
    · simp [hc]
    · simp only [if_neg hc] at hid ⊢
      simp only [List.mem_append, List.mem_singleton] at hl'
      rcases hl' with hl' | rfl
      · exact ha l' hl' hact i0 hi0 hid
      · exact absurd hid (by simpa [mkLoan] using hc)
  · -- at most one active loan per item
    intro l1 hl1 l2 hl2 h1a h2a hsame
    simp only [List.mem_append, List.mem_singleton] at hl1 hl2
    rcases hl1 with hl1 | rfl <;> rcases hl2 with hl2 | rfl
    · exact hb l1 hl1 l2 hl2 h1a h2a hsame
    · exact absurd (by simpa [mkLoan] using hsame) (K1 l1 hl1 h1a)
    · exact absurd (by simpa [mkLoan] using hsame.symm) (K1 l2 hl2 h2a)
    · rfl
  · -- every borrowed item has an active loan
    intro i' hi' hbor
    simp only [setItemStatus, List.mem_map] at hi'
    obtain ⟨i0, hi0, rfl⟩ := hi'
    by_cases hc : i0.id = iid
    · refine ⟨mkLoan s.nextLoanId pid iid now dueDays notes, ?_, rfl, ?_⟩
      · simp [List.mem_append]
      · simp [mkLoan, hc]
    · simp only [if_neg hc] at hbor ⊢
      obtain ⟨l, hl, hla, hlid⟩ := hd i0 hi0 hbor
      exact ⟨l, List.mem_append_left _ hl, hla, hlid⟩
  · -- loan ids remain distinct
    have hfresh : s.nextLoanId ∉ s.loans.map Loan.id := by
      intro hmem
      obtain ⟨l, hl, hlid⟩ := List.mem_map.mp hmem
      exact absurd hlid (Nat.ne_of_lt (hf l hl))
    simp only [List.map_append, List.map_cons, List.map_nil]
    rw [List.nodup_append]
    refine ⟨he, List.nodup_singleton _, ?_⟩
    intro a hmem hmem'
    simp only [mkLoan, List.mem_singleton] at hmem'
    subst hmem'
    exact hfresh hmem
  · -- all loan ids stay below the counter
    intro l hl
    simp only [List.mem_append, List.mem_singleton] at hl
    rcases hl with hl | rfl
    · exact Nat.lt_succ_of_lt (hf l hl)
    · simp [mkLoan]


theorem mem_markReturned_active {now : Int} {lid : Nat} {s : LedgerState} {l' : Loan}
    (h : l' ∈ (markReturned now lid s).loans) (hact : l'.status = LoanStatus.active) :
    l' ∈ s.loans ∧ l'.id ≠ lid := by
  simp only [markReturned, List.mem_map] at h
  obtain ⟨l, hl, rfl⟩ := h
  by_cases hc : l.id = lid
  · simp [hc] at hact
  · simp only [if_neg hc]
    exact ⟨hl, hc⟩

theorem markReturned_loanIds (now : Int) (lid : Nat) (s : LedgerState) :
    (markReturned now lid s).loans.map Loan.id = s.loans.map Loan.id := by
  simp only [markReturned, List.map_map]
  apply List.map_congr_left
  intro l _
  by_cases hc : l.id = lid <;> simp [hc]

theorem returnLoan_preserves {now : Int} {lid : Nat} {s s' : LedgerState}
    (hinv : circInv s) (h : returnLoan now lid s = Except.ok s') : circInv s' := by
  obtain ⟨ha, hb, hd, he, hf⟩ := hinv
  unfold returnLoan at h
  cases hl : findLoan s lid with
  | none => rw [hl] at h; exact absurd h (by simp)
  | some loan =>
    rw [hl] at h
    simp only at h
    split at h
    · exact absurd h (by simp)
    · rename_i hnr
      have hla : loan.status = LoanStatus.active := by
        cases hst : loan.status
        · rfl
        · exact absurd hst hnr
      have hlmem := findLoan_mem hl
      have hlid := findLoan_id hl
      have he' : ((markReturned now lid s).loans.map Loan.id).Nodup := by
        rw [markReturned_loanIds]; exact he
      have hf' : ∀ l' ∈ (markReturned now lid s).loans, l'.id < s.nextLoanId := by
        intro l' hl'
        simp only [markReturned, List.mem_map] at hl'
        obtain ⟨l, hm, rfl⟩ := hl'
        have : (if l.id = lid then
            { l with status := LoanStatus.returned, return_date := some now }
          else l).id = l.id := by
          by_cases hc : l.id = lid <;> simp [hc]
        rw [this]
        exact hf l hm
      -- (b) holds for the loans of `markReturned` directly
      have hb' : ∀ l1 ∈ (markReturned now lid s).loans, ∀ l2 ∈ (markReturned now lid s).loans,
          l1.status = LoanStatus.active → l2.status = LoanStatus.active →
          l1.itemId = l2.itemId → l1 = l2 := by
        intro l1 h1 l2 h2 a1 a2 hsame
        obtain ⟨m1, _⟩ := mem_markReturned_active h1 a1
        obtain ⟨m2, _⟩ := mem_markReturned_active h2 a2
        exact hb l1 m1 l2 m2 a1 a2 hsame
      cases hi : findItem s loan.itemId with
      | none =>
        rw [hi] at h
        simp only at h
        have hs' : s' = markReturned now lid s := ((Except.ok.injEq _ _).mp h).symm
        subst hs'
        refine ⟨?_, hb', ?_, he', hf'⟩
        · intro l' hl' hact i hi2 hid
          obtain ⟨hm, _⟩ := mem_markReturned_active hl' hact
          exact ha l' hm hact i hi2 hid
        · intro i hi2 hbor
          have hi3 : i ∈ s.items := hi2
          obtain ⟨l, hm, hact2, hid2⟩ := hd i hi3 hbor
          have hne : l.id ≠ lid := by
            intro hceq
            have hleq : l = loan :=
              List.inj_on_of_nodup_map he hm hlmem (by rw [hceq, hlid])
            subst hleq
            have := List.find?_eq_none.mp hi i hi3
            simp [hid2] at this
          refine ⟨l, ?_, hact2, hid2⟩
          simp only [markReturned, List.mem_map]
          exact ⟨l, hm, by simp [hne]⟩
      | some it =>
        rw [hi] at h
        simp only at h
        split at h
        · rename_i hdl
          have hbor : it.status = ItemStatus.borrowed :=
            ha loan hlmem hla it (findItem_mem hi) (findItem_id hi)
          rcases hdl with h1 | h1 <;> rw [hbor] at h1 <;> exact absurd h1 (by simp)
        · have hs' : s' = setItemStatus (markReturned now lid s) loan.itemId ItemStatus.available :=
            ((Except.ok.injEq _ _).mp h).symm
          subst hs'
          have K2 : ∀ l' ∈ (markReturned now lid s).loans, l'.status = LoanStatus.active →
              l'.itemId ≠ loan.itemId := by
            intro l' hl' hact heq
            obtain ⟨hm, hne⟩ := mem_markReturned_active hl' hact
            exact hne (by rw [hb l' hm loan hlmem hact hla heq, hlid])
          refine ⟨?_, ?_, ?_, ?_, ?_⟩
          · -- active loans' items stay borrowed
            intro l' hl' hact i' hi' hid
            simp only [setItemStatus, markReturned, List.mem_map] at hl' hi'
            obtain ⟨i0, hi0, rfl⟩ := hi'
            have hl'' : l' ∈ (markReturned now lid s).loans := by
              simp only [markReturned, List.mem_map]; exact hl'
            by_cases hc : i0.id = loan.itemId
            · exfalso
              apply K2 l' hl'' hact
              rw [← hid]
              simp [hc]
            · simp only [if_neg hc] at hid ⊢
              obtain ⟨hm, _⟩ := mem_markReturned_active hl'' hact
              exact ha l' hm hact i0 hi0 hid
          · -- at most one active loan per item
            intro l1 h1 l2 h2 a1 a2 hsame
            exact hb' l1 h1 l2 h2 a1 a2 hsame
          · -- every borrowed item still has an active loan
            intro i' hi' hbor
            simp only [setItemStatus, markReturned, List.mem_map] at hi'
            obtain ⟨i0, hi0, rfl⟩ := hi'
            by_cases hc : i0.id = loan.itemId
            · simp [hc] at hbor
            · simp only [if_neg hc] at hbor ⊢
              obtain ⟨l, hm, hact2, hid2⟩ := hd i0 hi0 hbor
              have hne : l.id ≠ lid := by
                intro hceq
                have hleq : l = loan :=
                  List.inj_on_of_nodup_map he hm hlmem (by rw [hceq, hlid])
                subst hleq
                exact hc hid2.symm
              refine ⟨l, ?_, hact2, hid2⟩
              simp only [setItemStatus, markReturned, List.mem_map]
              exact ⟨l, hm, by simp [hne]⟩
          · exact he'
          · exact hf'


theorem extendLoan_ok_elim {lid d : Nat} {s s' : LedgerState}
    (h : extendLoan lid d s = Except.ok s') :
    ∃ loan, findLoan s lid = some loan ∧ loan.status = LoanStatus.active ∧ 0 < d ∧
      s' = { s with loans := s.loans.map (fun l =>
               if l.id = lid then { l with due_date := l.due_date + d } else l) } := by
  unfold extendLoan at h
  cases hl : findLoan s lid with
  | none => rw [hl] at h; exact absurd h (by simp)
  | some loan =>
    rw [hl] at h
    simp only at h
    split at h
    · split at h
      · rename_i hact hpos
        exact ⟨loan, rfl, hact, hpos, ((Except.ok.injEq _ _).mp h).symm⟩
      · exact absurd h (by simp)
    · exact absurd h (by simp)

theorem extendLoan_preserves {lid d : Nat} {s s' : LedgerState}
    (hinv : circInv s) (h : extendLoan lid d s = Except.ok s') : circInv s' := by
  obtain ⟨loan, hl, hla, hpos, rfl⟩ := extendLoan_ok_elim h
  obtain ⟨ha, hb, hd, he, hf⟩ := hinv
  have hmem : ∀ l' : Loan,
      l' ∈ s.loans.map (fun l => if l.id = lid then { l with due_date := l.due_date + d } else l) →
      ∃ l ∈ s.loans, l' = (if l.id = lid then { l with due_date := l.due_date + d } else l) := by
    intro l' hl'
    obtain ⟨l, hm, rfl⟩ := List.mem_map.mp hl'
    exact ⟨l, hm, rfl⟩
  have hstat : ∀ l : Loan,
      (if l.id = lid then { l with due_date := l.due_date + (d : Int) } else l).status = l.status := by
    intro l; by_cases hc : l.id = lid <;> simp [hc]
  have hitem : ∀ l : Loan,
      (if l.id = lid then { l with due_date := l.due_date + (d : Int) } else l).itemId = l.itemId := by
    intro l; by_cases hc : l.id = lid <;> simp [hc]
  have hid : ∀ l : Loan,
      (if l.id = lid then { l with due_date := l.due_date + (d : Int) } else l).id = l.id := by
    intro l; by_cases hc : l.id = lid <;> simp [hc]
  refine ⟨?_, ?_, ?_, ?_, ?_⟩
  · intro l' hl' hact i hi hid2
    obtain ⟨l, hm, rfl⟩ := hmem l' hl'
    rw [hstat l] at hact
    rw [hitem l] at hid2
    exact ha l hm hact i hi hid2
  · intro l1 h1 l2 h2 a1 a2 hsame
    obtain ⟨m1, hm1, rfl⟩ := hmem l1 h1
    obtain ⟨m2, hm2, rfl⟩ := hmem l2 h2
    rw [hstat m1] at a1
    rw [hstat m2] at a2
    rw [hitem m1, hitem m2] at hsame
    rw [hb m1 hm1 m2 hm2 a1 a2 hsame]
  · intro i hi hbor
    obtain ⟨l, hm, hact2, hid2⟩ := hd i hi hbor
    refine ⟨(if l.id = lid then { l with due_date := l.due_date + d } else l), ?_, ?_, ?_⟩
    · exact List.mem_map_of_mem _ hm
    · rw [hstat l]; exact hact2
    · rw [hitem l]; exact hid2
  · have : (s.loans.map (fun l => if l.id = lid then { l with due_date := l.due_date + (d : Int) } else l)).map Loan.id
        = s.loans.map Loan.id := by
      rw [List.map_map]
      apply List.map_congr_left
      intro l _
      exact hid l
    simp only [this]
    exact he
  · intro l' hl'
    obtain ⟨l, hm, rfl⟩ := hmem l' hl'
    rw [hid l]
    exact hf l hm



/-! ## Reachable ledger states -/

/-- States reachable through the ledger's state machine (spec §4.1): an
initial state has no loans and no item already marked borrowed; steps are
successful Checkout, Return and Extend operations. -/
inductive Reachable : LedgerState → Prop where
  | init (s : LedgerState) (hloans : s.loans = [])
      (hitems : ∀ i ∈ s.items, i.status ≠ ItemStatus.borrowed) : Reachable s
  | step_checkout (pol : Policy) (now : Int) (pid iid dueDays : Nat)
      (notes : Option String) (s s' : LedgerState) (hr : Reachable s)
      (h : checkout pol now pid iid dueDays notes s = Except.ok s') : Reachable s'
  | step_return (now : Int) (lid : Nat) (s s' : LedgerState) (hr : Reachable s)
      (h : returnLoan now lid s = Except.ok s') : Reachable s'
  | step_extend (lid d : Nat) (s s' : LedgerState) (hr : Reachable s)
      (h : extendLoan lid d s = Except.ok s') : Reachable s'

theorem reachable_circInv {s : LedgerState} (h : Reachable s) : circInv s := by
  induction h with
  | init s hloans hitems =>
    refine ⟨?_, ?_, ?_, ?_, ?_⟩ <;> simp only [hloans]
    · intro l hl; simp at hl
    · intro l hl; simp at hl
    · intro i hi hbor
      exact absurd hbor (hitems i hi)
    · simp
    · intro l hl; simp at hl
  | step_checkout pol now pid iid dueDays notes s s' hr h ih =>
    exact checkout_preserves ih h
  | step_return now lid s s' hr h ih =>
    exact returnLoan_preserves ih h
  | step_extend lid d s s' hr h ih =>
    exact extendLoan_preserves ih h

/-! ## The due-date invariant -/

/-- Every loan's due date is at or after its checkout date. -/
def dueInv (s : LedgerState) : Prop :=
  ∀ l ∈ s.loans, l.checkout_date ≤ l.due_date

theorem checkout_preserves_dueInv {pol : Policy} {now : Int} {pid iid dueDays : Nat}
    {notes : Option String} {s s' : LedgerState}
    (hinv : dueInv s) (h : checkout pol now pid iid dueDays notes s = Except.ok s') :
    dueInv s' := by
  obtain ⟨p, hp, hpa, it, hit, hita, hdpos, hdmem, rfl⟩ := checkout_ok_elim h
  intro l hl
  simp only [List.mem_append, List.mem_singleton] at hl
  rcases hl with hl | rfl
  · exact hinv l hl
  · simp only [mkLoan]
    exact le_add_of_nonneg_right (by positivity)

theorem returnLoan_preserves_dueInv {now : Int} {lid : Nat} {s s' : LedgerState}
    (hinv : dueInv s) (h : returnLoan now lid s = Except.ok s') : dueInv s' := by
  have hmem : ∀ l' ∈ (markReturned now lid s).loans,
      l'.checkout_date ≤ l'.due_date := by
    intro l' hl'
    simp only [markReturned, List.mem_map] at hl'
    obtain ⟨l, hm, rfl⟩ := hl'
    by_cases hc : l.id = lid <;> simp [hc, hinv l hm]
  unfold returnLoan at h
  cases hl : findLoan s lid with
  | none => rw [hl] at h; exact absurd h (by simp)
  | some loan =>
    rw [hl] at h
    simp only at h
    split at h
    · exact absurd h (by simp)
    · cases hi : findItem s loan.itemId with
      | none =>
        rw [hi] at h
        simp only at h
        have hs' : s' = markReturned now lid s := ((Except.ok.injEq _ _).mp h).symm
        subst hs'
        exact hmem
      | some it =>
        rw [hi] at h
        simp only at h
        split at h
        · have hs' : s' = markReturned now lid s := ((Except.ok.injEq _ _).mp h).symm
          subst hs'
          exact hmem
        · have hs' : s' = setItemStatus (markReturned now lid s) loan.itemId ItemStatus.available :=
            ((Except.ok.injEq _ _).mp h).symm
          subst hs'
          exact hmem

theorem extendLoan_preserves_dueInv {lid d : Nat} {s s' : LedgerState}
    (hinv : dueInv s) (h : extendLoan lid d s = Except.ok s') : dueInv s' := by
  obtain ⟨loan, hl, hla, hpos, rfl⟩ := extendLoan_ok_elim h
  intro l' hl'
  obtain ⟨l, hm, rfl⟩ := List.mem_map.mp hl'
  by_cases hc : l.id = lid
  · simp only [if_pos hc]
    have h1 := hinv l hm
    have hd0 : (0 : Int) ≤ d := by positivity
    show l.checkout_date ≤ l.due_date + (d : Int)
    omega
  · simp only [if_neg hc]
    exact hinv l hm

theorem reachable_dueInv {s : LedgerState} (h : Reachable s) : dueInv s := by
  induction h with
  | init s hloans hitems =>
    intro l hl
    rw [hloans] at hl
    simp at hl
  | step_checkout pol now pid iid dueDays notes s s' hr h ih =>
    exact checkout_preserves_dueInv ih h
  | step_return now lid s s' hr h ih =>
    exact returnLoan_preserves_dueInv ih h
  | step_extend lid d s s' hr h ih =>
    exact extendLoan_preserves_dueInv ih h



/-! ## Auxiliary lemmas for the claim theorems -/

theorem find?_map_of_pred {α : Type} (f : α → α) (p : α → Bool)
    (hp : ∀ a, p (f a) = p a) :
    ∀ l : List α, (l.map f).find? p = (l.find? p).map f := by
  intro l
  induction l with
  | nil => rfl
  | cons a t ih =>
    simp only [List.map_cons, List.find?]
    rw [hp a]
    cases hpa : p a
    · simpa using ih
    · simp

theorem findLoan_markReturned (now : Int) (lid qid : Nat) (s : LedgerState) :
    findLoan (markReturned now lid s) qid = (findLoan s qid).map (fun l =>
      if l.id = lid then { l with status := LoanStatus.returned, return_date := some now }
      else l) := by
  unfold findLoan markReturned
  apply find?_map_of_pred
  intro l
  by_cases hc : l.id = lid <;> simp [hc]

theorem findLoan_setItemStatus (t : LedgerState) (iid : Nat) (st : ItemStatus) (qid : Nat) :
    findLoan (setItemStatus t iid st) qid = findLoan t qid := rfl

theorem findItem_markReturned (now : Int) (lid : Nat) (s : LedgerState) (qid : Nat) :
    findItem (markReturned now lid s) qid = findItem s qid := rfl

theorem findItem_setItemStatus (t : LedgerState) (iid : Nat) (st : ItemStatus) (qid : Nat) :
    findItem (setItemStatus t iid st) qid = (findItem t qid).map (fun i =>
      if i.id = iid then { i with status := st } else i) := by
  unfold findItem setItemStatus
  apply find?_map_of_pred
  intro i
  by_cases hc : i.id = iid <;> simp [hc]


/-! ## Concrete example states -/

def itemA : CatalogItem := { id := 1, status := ItemStatus.available }

def patronP : Patron := { id := 1, status := PatronStatus.active }

def patronS : Patron := { id := 2, status := PatronStatus.suspended }

def pol0 : Policy :=
  { default_period := 14, available_periods := [7, 14, 21, 28], extension_period := 7 }

def s0 : LedgerState :=
  { items := [itemA], patrons := [patronP, patronS], loans := [], nextLoanId := 0 }

/-- The state after checking item 1 out to patron 1 for 14 days at time 0. -/
def s1 : LedgerState :=
  { items := [{ id := 1, status := ItemStatus.borrowed }]
    patrons := [patronP, patronS]
    loans := [mkLoan 0 1 1 0 14 none]
    nextLoanId := 1 }

/-- Sanity check: `s1` is exactly the result of that checkout from `s0`. -/
theorem checkout_s0_s1 : checkout pol0 0 1 1 14 none s0 = Except.ok s1 := by rfl

/-! ## Claim theorems -/

/-- Claim C2: a loan is reported as overdue exactly when its stored status is
active and its due date is before the current time; stored non-active
statuses are never reported overdue; and the display otherwise surfaces the
stored status unchanged (the badge computation is a pure function of the
record — it never writes the status field). -/
theorem overdue_reported_iff_active_past_due :
    ∀ (st : LoanStatus) (dueDate now : Int),
      (displayedStatus (viewOfLoanStatus st) dueDate now = ViewLoanStatus.overdue ↔
        st = LoanStatus.active ∧ dueDate < now)
      ∧ (∀ d n : Int, isOverdue d ViewLoanStatus.returned n = false)
      ∧ (∀ d n : Int, isOverdue d ViewLoanStatus.lost n = false)
      ∧ (∀ st' : ViewLoanStatus,
          displayedStatus st' dueDate now = ViewLoanStatus.overdue ∨
          displayedStatus st' dueDate now = st') := by
  intro st dueDate now
  refine ⟨?_, ?_, ?_, ?_⟩
  · cases st <;> by_cases hd : dueDate < now <;>
      simp [displayedStatus, isOverdue, viewOfLoanStatus, hd]
  · intro d n; simp [isOverdue]
  · intro d n; simp [isOverdue]
  · intro st'
    by_cases ho : isOverdue dueDate st' now
    · left; simp [displayedStatus, ho]
    · right; simp [displayedStatus, ho]

/-- Claim C9: in the persisted SQL schema a loan's stored status can only be
borrowed or returned (defaulting to borrowed) — overdue is not storable —
and every audit-log action is one of checkout, return, extend, delete. -/
theorem schema_loan_status_and_audit_action :
    loanStatusAllowed "overdue" = false
    ∧ loanStatusAllowed loanStatusDefault = true
    ∧ (∀ st : String, loanStatusAllowed st = true ↔ st = "borrowed" ∨ st = "returned")
    ∧ (∀ a : String, auditActionAllowed a = true ↔
        a = "checkout" ∨ a = "return" ∨ a = "extend" ∨ a = "delete") := by
  refine ⟨by decide, by decide, ?_, ?_⟩
  · intro st
    simp [loanStatusAllowed, Bool.or_eq_true, beq_iff_eq]
  · intro a
    simp [auditActionAllowed, Bool.or_eq_true, beq_iff_eq, or_assoc]

/-- Claim C10: each dashboard statistics fetcher returns 0 when its request
throws or the response is not OK; the overdue metric is the length of the
array body and 0 for a non-array body. -/
theorem dashboard_fetchers_error_to_zero :
    (getPatronCount FetchOutcome.throws = 0)
    ∧ (∀ c : Nat, getPatronCount (FetchOutcome.resp false c) = 0)
    ∧ (∀ c : Nat, getPatronCount (FetchOutcome.resp true c) = c)
    ∧ (getCatalogCount FetchOutcome.throws = 0)
    ∧ (∀ c : Nat, getCatalogCount (FetchOutcome.resp false c) = 0)
    ∧ (getActiveLoansCount FetchOutcome.throws = 0)
    ∧ (∀ c : Nat, getActiveLoansCount (FetchOutcome.resp false c) = 0)
    ∧ (getOverdueLoansCount FetchOutcome.throws = 0)
    ∧ (∀ b : OverdueBody, getOverdueLoansCount (FetchOutcome.resp false b) = 0)
    ∧ (∀ loans : List Loan,
        getOverdueLoansCount (FetchOutcome.resp true (OverdueBody.jsonArray loans)) = loans.length)
    ∧ (getOverdueLoansCount (FetchOutcome.resp true OverdueBody.nonArray) = 0) := by
  refine ⟨rfl, fun c => rfl, fun c => rfl, rfl, fun c => rfl, rfl, fun c => rfl, rfl,
    fun b => rfl, fun loans => rfl, rfl⟩

/-- Claim C8: the next catalog number is 1 when the stored last year differs
from the current (two-digit) year and `last_number + 1` otherwise, and the id
string substitutes the number and year tokens into the configured format. -/
theorem catalog_id_year_scoped_counter :
    (∀ lastYear currentYear lastNumber : Nat, lastYear ≠ currentYear →
        nextCatalogNumber lastYear currentYear lastNumber = 1)
    ∧ (∀ currentYear lastNumber : Nat,
        nextCatalogNumber currentYear currentYear lastNumber = lastNumber + 1)
    ∧ previewNextId "{number}/{year}" 23 24 255 = "1/24"
    ∧ previewNextId "{number}/{year}" 24 24 255 = "256/24"
    ∧ previewNextId "{year}/{number}" 24 24 255 = "24/256"
    ∧ previewNextId "{year}-{number}" 24 24 7 = "24-8"
    ∧ previewNextId "CAT-{number}" 24 24 41 = "CAT-42" := by
  refine ⟨?_, ?_, by decide, by decide, by decide, by decide, by decide⟩
  · intro ly cy n hne
    simp [nextCatalogNumber, hne]
  · intro cy n
    simp [nextCatalogNumber]

theorem catalog_id_year_scoped_counter_witness :
    (23 : Nat) ≠ 24 ∧ nextCatalogNumber 23 24 255 = 1 :=
  ⟨by decide, catalog_id_year_scoped_counter.1 23 24 255 (by decide)⟩


/-- Claim C1: in every reachable ledger state, an item is borrowed exactly
when an active loan references it; at most one active loan references any
item; no available item is referenced by an active loan. -/
theorem borrowed_iff_active_loan (s : LedgerState) (h : Reachable s) :
    (∀ i ∈ s.items, (i.status = ItemStatus.borrowed ↔
        ∃ l ∈ s.loans, l.status = LoanStatus.active ∧ l.itemId = i.id))
    ∧ (∀ l1 ∈ s.loans, ∀ l2 ∈ s.loans, l1.status = LoanStatus.active →
        l2.status = LoanStatus.active → l1.itemId = l2.itemId → l1 = l2)
    ∧ (∀ i ∈ s.items, i.status = ItemStatus.available →
        ∀ l ∈ s.loans, l.status = LoanStatus.active → l.itemId ≠ i.id) := by
  obtain ⟨ha, hb, hd, he, hf⟩ := reachable_circInv h
  refine ⟨?_, hb, ?_⟩
  · intro i hi
    constructor
    · exact hd i hi
    · rintro ⟨l, hl, hact, hlid⟩
      exact ha l hl hact i hi hlid.symm
  · intro i hi hav l hl hact heq
    have hbor := ha l hl hact i hi heq.symm
    rw [hav] at hbor
    exact absurd hbor (by simp)

/-- Witness for C1 at the concrete reachable state `s1` (one borrowed item,
one active loan). -/
theorem borrowed_iff_active_loan_witness :
    Reachable s1
    ∧ ((∀ i ∈ s1.items, (i.status = ItemStatus.borrowed ↔
          ∃ l ∈ s1.loans, l.status = LoanStatus.active ∧ l.itemId = i.id))
      ∧ (∀ l1 ∈ s1.loans, ∀ l2 ∈ s1.loans, l1.status = LoanStatus.active →
          l2.status = LoanStatus.active → l1.itemId = l2.itemId → l1 = l2)
      ∧ (∀ i ∈ s1.items, i.status = ItemStatus.available →
          ∀ l ∈ s1.loans, l.status = LoanStatus.active → l.itemId ≠ i.id)) := by
  have hr : Reachable s1 :=
    Reachable.step_checkout pol0 0 1 1 14 none s0 s1
      (Reachable.init s0 rfl (by decide)) (by rfl)
  exact ⟨hr, borrowed_iff_active_loan s1 hr⟩

/-- Claim C7: in every reachable state every loan's due date is at or after
its checkout date; a successful checkout creates the loan with
`due_date = checkout_date + due_days` for a positive `due_days` in the
policy's allowed periods; extension only pushes due dates forward. -/
theorem due_date_ge_checkout_date (s : LedgerState) (h : Reachable s) :
    (∀ l ∈ s.loans, l.checkout_date ≤ l.due_date)
    ∧ (∀ (pol : Policy) (now : Int) (pid iid dueDays : Nat) (notes : Option String)
        (s2 s' : LedgerState),
        checkout pol now pid iid dueDays notes s2 = Except.ok s' →
        0 < dueDays ∧ dueDays ∈ pol.available_periods ∧
        ∃ L ∈ s'.loans, L.checkout_date = now ∧ L.due_date = now + dueDays)
    ∧ (∀ (lid d : Nat) (s2 s' : LedgerState),
        extendLoan lid d s2 = Except.ok s' →
        ∀ l' ∈ s'.loans, ∃ l ∈ s2.loans, l.due_date ≤ l'.due_date) := by
  refine ⟨reachable_dueInv h, ?_, ?_⟩
  · intro pol now pid iid dueDays notes s2 s' hok
    obtain ⟨p, hp, hpa, it, hit, hita, hdpos, hdmem, rfl⟩ := checkout_ok_elim hok
    refine ⟨hdpos, hdmem, mkLoan s2.nextLoanId pid iid now dueDays notes, ?_, rfl, rfl⟩
    simp [List.mem_append]
  · intro lid d s2 s' hok l' hl'
    obtain ⟨loan, hl, hla, hpos, rfl⟩ := extendLoan_ok_elim hok
    obtain ⟨l, hm, rfl⟩ := List.mem_map.mp hl'
    refine ⟨l, hm, ?_⟩
    by_cases hc : l.id = lid
    · simp only [if_pos hc]
      have hd0 : (0 : Int) ≤ d := by positivity
      show l.due_date ≤ l.due_date + (d : Int)
      omega
    · simp [if_neg hc]

/-- Witness for C7 at the concrete reachable state `s1`. -/
theorem due_date_ge_checkout_date_witness :
    Reachable s1 ∧ (∀ l ∈ s1.loans, l.checkout_date ≤ l.due_date) := by
  have hr : Reachable s1 :=
    Reachable.step_checkout pol0 0 1 1 14 none s0 s1
      (Reachable.init s0 rfl (by decide)) (by rfl)
  exact ⟨hr, (due_date_ge_checkout_date s1 hr).1⟩


/-- A checkout as its caller observes it: on success the new state, on
failure the unchanged state together with the error (the spec requires the
operation to be a single atomic unit, §5). -/
def runCheckout (pol : Policy) (now : Int) (pid iid dueDays : Nat)
    (notes : Option String) (s : LedgerState) : LedgerState × Option LedgerError :=
  match checkout pol now pid iid dueDays notes s with
  | Except.ok s' => (s', none)
  | Except.error e => (s, some e)

theorem findLoan_extendMap (lid : Nat) (d : Int) (s : LedgerState) (qid : Nat) :
    findLoan { s with loans := s.loans.map (fun l =>
        if l.id = lid then { l with due_date := l.due_date + d } else l) } qid
      = (findLoan s qid).map (fun l =>
          if l.id = lid then { l with due_date := l.due_date + d } else l) := by
  unfold findLoan
  apply find?_map_of_pred
  intro l
  by_cases hc : l.id = lid <;> simp [hc]

/-- Claim C4: a checkout is atomic — it either fully succeeds, appending the
new loan and flipping the item to borrowed, or fully fails leaving the state
(loans and items included) unchanged. -/
theorem checkout_atomic :
    ∀ (pol : Policy) (now : Int) (pid iid dueDays : Nat) (notes : Option String)
      (s : LedgerState),
      (∃ e, runCheckout pol now pid iid dueDays notes s = (s, some e))
      ∨ (∃ s', runCheckout pol now pid iid dueDays notes s = (s', none)
          ∧ s'.loans = s.loans ++ [mkLoan s.nextLoanId pid iid now dueDays notes]
          ∧ findItem s' iid = some { id := iid, status := ItemStatus.borrowed }
          ∧ s'.patrons = s.patrons) := by
  intro pol now pid iid dueDays notes s
  cases hres : checkout pol now pid iid dueDays notes s with
  | error e =>
    left
    exact ⟨e, by simp [runCheckout, hres]⟩
  | ok s' =>
    right
    obtain ⟨p, hp, hpa, it, hit, hita, hdpos, hdmem, hs'⟩ := checkout_ok_elim hres
    have hid := findItem_id hit
    refine ⟨s', by simp [runCheckout, hres], by rw [hs'], ?_, by rw [hs']⟩
    rw [hs']
    show findItem (setItemStatus s iid ItemStatus.borrowed) iid = _
    rw [findItem_setItemStatus, hit]
    simp only [Option.map_some']
    rw [if_pos hid]
    cases it with
    | mk i0 st0 =>
      simp only at hid
      rw [hid]

/-- Claim C3: the checkout dialog loads only active patrons and only
available items as choices; the form cannot be submitted until both a patron
and an item are selected; a checkout for a suspended patron fails with
`PatronNotEligible` and creates no loan (the state is unchanged). -/
theorem checkout_requires_active_patron_and_available_item :
    (∀ s : LedgerState, ∀ p ∈ checkoutDialogPatrons s, p.status = PatronStatus.active)
    ∧ (∀ s : LedgerState, ∀ i ∈ checkoutDialogItems s, i.status = ItemStatus.available)
    ∧ (∀ (loading : Bool) (pid iid : String),
        checkoutSubmitDisabled loading pid iid = false → pid ≠ "" ∧ iid ≠ "")
    ∧ (∀ (pol : Policy) (now : Int) (pid iid dueDays : Nat) (notes : Option String)
        (s : LedgerState) (p : Patron),
        findPatron s pid = some p → p.status = PatronStatus.suspended →
        runCheckout pol now pid iid dueDays notes s = (s, some LedgerError.PatronNotEligible)) := by
  refine ⟨?_, ?_, ?_, ?_⟩
  · intro s p hp
    simp only [checkoutDialogPatrons, listPatronsByStatus, List.mem_filter] at hp
    exact beq_iff_eq.mp hp.2
  · intro s i hi
    simp only [checkoutDialogItems, listItemsByStatus, List.mem_filter] at hi
    exact beq_iff_eq.mp hi.2
  · intro loading pid iid h
    simp only [checkoutSubmitDisabled, Bool.or_eq_false_iff, beq_eq_false_iff_ne] at h
    exact ⟨h.1.2, h.2⟩
  · intro pol now pid iid dueDays notes s p hfind hsus
    have hne : ¬ p.status = PatronStatus.active := by rw [hsus]; simp
    have : checkout pol now pid iid dueDays notes s =
        Except.error LedgerError.PatronNotEligible := by
      unfold checkout
      rw [hfind]
      simp only [if_neg hne]
    simp [runCheckout, this]

theorem checkout_requires_active_witness :
    findPatron s0 2 = some patronS
    ∧ patronS.status = PatronStatus.suspended
    ∧ runCheckout pol0 0 2 1 14 none s0 = (s0, some LedgerError.PatronNotEligible) :=
  ⟨by rfl, rfl,
    checkout_requires_active_patron_and_available_item.2.2.2
      pol0 0 2 1 14 none s0 patronS (by rfl) rfl⟩

/-- Claim C5: returning an active loan succeeds, stamping `return_date`,
marking the loan returned and flipping the item back to available (unless it
was separately flagged damaged or lost); a second return of the same loan
fails with `LoanAlreadyReturned` instead of silently succeeding, so the item
status is not toggled twice. -/
theorem return_marks_returned_then_fails
    (s : LedgerState) (lid : Nat) (now now2 : Int) (loan : Loan)
    (hfind : findLoan s lid = some loan) (hact : loan.status = LoanStatus.active) :
    ∃ s', returnLoan now lid s = Except.ok s'
      ∧ findLoan s' lid =
          some { loan with status := LoanStatus.returned, return_date := some now }
      ∧ (∀ it, findItem s loan.itemId = some it → it.status ≠ ItemStatus.damaged →
          it.status ≠ ItemStatus.lost →
          findItem s' loan.itemId = some { it with status := ItemStatus.available })
      ∧ returnLoan now2 lid s' = Except.error LedgerError.LoanAlreadyReturned := by
  have hnr : ¬ loan.status = LoanStatus.returned := by rw [hact]; simp
  have hlid := findLoan_id hfind
  have hfl : findLoan (markReturned now lid s) lid =
      some { loan with status := LoanStatus.returned, return_date := some now } := by
    rw [findLoan_markReturned, hfind]
    simp [hlid]
  have hsecond : ∀ t : LedgerState,
      findLoan t lid =
        some { loan with status := LoanStatus.returned, return_date := some now } →
      returnLoan now2 lid t = Except.error LedgerError.LoanAlreadyReturned := by
    intro t ht
    unfold returnLoan
    rw [ht]
    simp
  cases hi : findItem s loan.itemId with
  | none =>
    refine ⟨markReturned now lid s, ?_, hfl, ?_, hsecond _ hfl⟩
    · unfold returnLoan
      rw [hfind]
      simp only [if_neg hnr]
      rw [hi]
    · intro it hit
      exact absurd hit (by simp)
  | some it =>
    by_cases hdl : it.status = ItemStatus.damaged ∨ it.status = ItemStatus.lost
    · refine ⟨markReturned now lid s, ?_, hfl, ?_, hsecond _ hfl⟩
      · unfold returnLoan
        rw [hfind]
        simp only [if_neg hnr]
        rw [hi]
        simp only [if_pos hdl]
      · intro it' hit' hnd hnl
        injection hit' with hit''
        subst hit''
        rcases hdl with h1 | h1
        · exact absurd h1 hnd
        · exact absurd h1 hnl
    · refine ⟨setItemStatus (markReturned now lid s) loan.itemId ItemStatus.available,
        ?_, ?_, ?_, ?_⟩
      · unfold returnLoan
        rw [hfind]
        simp only [if_neg hnr]
        rw [hi]
        simp only [if_neg hdl]
      · rw [findLoan_setItemStatus]
        exact hfl
      · intro it' hit' hnd hnl
        injection hit' with hit''
        subst hit''
        rw [findItem_setItemStatus, findItem_markReturned, hi]
        simp [findItem_id hi]
      · rw [← findLoan_setItemStatus (markReturned now lid s) loan.itemId
            ItemStatus.available lid] at hfl
        exact hsecond _ hfl

theorem return_marks_returned_then_fails_witness :
    findLoan s1 0 = some (mkLoan 0 1 1 0 14 none)
    ∧ (mkLoan 0 1 1 0 14 none).status = LoanStatus.active
    ∧ ∃ s', returnLoan 20 0 s1 = Except.ok s'
        ∧ returnLoan 30 0 s' = Except.error LedgerError.LoanAlreadyReturned := by
  have h := return_marks_returned_then_fails s1 0 20 30 (mkLoan 0 1 1 0 14 none)
    (by rfl) rfl
  obtain ⟨s', h1, _, _, h4⟩ := h
  exact ⟨by rfl, rfl, s', h1, h4⟩

/-- Claim C6: extending an active loan by `d` days adds exactly `d` days to
its due date and changes nothing else (the loan keeps all its other fields,
other loans, items, patrons and the id counter are untouched); extending a
returned loan fails with `LoanNotActive`; and the UI offers the Extend action
only for loans whose status is active. -/
theorem extend_adds_days_only
    (s : LedgerState) (lid d : Nat) (loan : Loan)
    (hfind : findLoan s lid = some loan) :
    (loan.status = LoanStatus.active → 0 < d →
      ∃ s', extendLoan lid d s = Except.ok s'
        ∧ findLoan s' lid = some { loan with due_date := loan.due_date + d }
        ∧ s'.items = s.items ∧ s'.patrons = s.patrons ∧ s'.nextLoanId = s.nextLoanId
        ∧ ∀ l ∈ s.loans, l.id ≠ lid → l ∈ s'.loans)
    ∧ (loan.status = LoanStatus.returned →
        extendLoan lid d s = Except.error LedgerError.LoanNotActive)
    ∧ (∀ st : ViewLoanStatus, loanActionsVisible st = true ↔ st = ViewLoanStatus.active) := by
  have hlid := findLoan_id hfind
  refine ⟨?_, ?_, ?_⟩
  · intro hact hpos
    refine ⟨{ s with loans := s.loans.map (fun l =>
        if l.id = lid then { l with due_date := l.due_date + d } else l) },
      ?_, ?_, rfl, rfl, rfl, ?_⟩
    · unfold extendLoan
      rw [hfind]
      simp only [if_pos hact, if_pos hpos]
    · rw [findLoan_extendMap, hfind]
      simp [hlid]
    · intro l hl hne
      simp only [List.mem_map]
      exact ⟨l, hl, by simp [hne]⟩
  · intro hret
    have hne : ¬ loan.status = LoanStatus.active := by rw [hret]; simp
    unfold extendLoan
    rw [hfind]
    simp only [if_neg hne]
  · intro st
    cases st <;> simp [loanActionsVisible]

theorem extend_adds_days_only_witness :
    findLoan s1 0 = some (mkLoan 0 1 1 0 14 none)
    ∧ (mkLoan 0 1 1 0 14 none).status = LoanStatus.active
    ∧ (0 : Nat) < 7
    ∧ ∃ s', extendLoan 0 7 s1 = Except.ok s'
        ∧ findLoan s' 0 =
            some { mkLoan 0 1 1 0 14 none with
                    due_date := (mkLoan 0 1 1 0 14 none).due_date + (7 : Nat) } := by
  obtain ⟨s', h1, h2, _⟩ :=
    (extend_adds_days_only s1 0 7 (mkLoan 0 1 1 0 14 none) (by rfl)).1 rfl (by decide)
  exact ⟨by rfl, rfl, by decide, s', h1, h2⟩


end MiniBiblio
